import Mathlib

/-!
# Verification of the stargazer core (fetch engine, cache, search)

Shallow embedding of the repository's core logic:

* `GitHubService` (`src/lib/utils/validation.ts`): `fetchPage`,
  `getLastPage` (Link-header pagination planner), `fetchAllStarredRepos`.
* `StarsDbService` / `DbService` (`src/lib/db.ts`): `put`, `getAll`,
  `saveStars`, `getCachedStars` over an IndexedDB store keyed by `id`.
* `search.ts`: `createFuseInstance` / `searchRepositories` /
  `sortRepositories`.

Asynchronous code is embedded as explicit state passing together with
observable traces (issued page requests, `onProgress` invocations, promise
settlement times).  JS numbers are embedded as `Int`/`Nat` (none of the
claims exercises floating point), JS exceptions as `Except String`.
-/

namespace Stargazer

/-- The `Repository.owner` sub-object (`src/lib/types.ts`). -/
structure Owner where
  login : String
deriving Repr, DecidableEq

/-- The `Repository` interface from `src/lib/types.ts`. -/
structure Repository where
  id : Int
  name : String
  description : Option String
  html_url : String
  language : Option String
  stargazers_count : Int
  updated_at : String
  owner : Owner
deriving Repr, DecidableEq

/-- The `RepositoryRecord` interface from `src/lib/types.ts`:
the persisted shape of one cache entry. -/
structure RepositoryRecord where
  id : Int
  repository : Repository
  timestamp : Nat
deriving Repr, DecidableEq

/-! ## Pagination planner: `GitHubService.getLastPage`

```ts
private getLastPage(linkHeader: string | null): number {
  if (!linkHeader) return 1;
  const matches = linkHeader.match(/<[^>]*[&?]page=(\d+)[^>]*>; rel="last"/);
  return matches ? parseInt(matches[1]) : 1;
}
```

The regex match is embedded as an explicit backtracking matcher with
JavaScript semantics: leftmost starting position wins, and the greedy
pieces (`[^>]*`, `\d+`) prefer the longest alternative first, falling back
to shorter ones on failure.  The capture is group 1 (the digits of
`page=`). -/

/-- Greedy `[^>]*` followed by a continuation `k`: first try to consume the
next non-`>` character (longest match first), on failure of the whole rest
back off one character at a time. -/
def starNotGtThen (k : List Char → Option (List Char)) :
    List Char → Option (List Char)
  | [] => k []
  | c :: cs =>
    if c = '>' then k (c :: cs)
    else
      match starNotGtThen k cs with
      | some r => some r
      | none => k (c :: cs)

/-- Greedy `\d*` (continuing a `\d+` whose first digit is already in `acc`,
most recent first) followed by a continuation `k` receiving the digits
captured so far and the rest of the input. -/
def digitStarThen (acc : List Char)
    (k : List Char → List Char → Option (List Char)) :
    List Char → Option (List Char)
  | [] => k acc.reverse []
  | c :: cs =>
    if c.isDigit then
      match digitStarThen (c :: acc) k cs with
      | some r => some r
      | none => k acc.reverse (c :: cs)
    else k acc.reverse (c :: cs)

/-- A literal piece of the regex followed by a continuation. -/
def litThen (lit : List Char) (k : List Char → Option (List Char))
    (s : List Char) : Option (List Char) :=
  if lit.isPrefixOf s then k (s.drop lit.length) else none

/-- Tail of the pattern once the capture `ds` is complete:
`[^>]*>; rel="last"`. -/
def closeThen (ds : List Char) (s2 : List Char) : Option (List Char) :=
  starNotGtThen
    (fun s3 => litThen (">; rel=\"last\"".data) (fun _ => some ds) s3) s2

/-- The part of the pattern after `[&?]`:
`page=(\d+)[^>]*>; rel="last"`, returning the capture. -/
def matchAfterAmp (s : List Char) : Option (List Char) :=
  litThen ("page=".data)
    (fun s1 =>
      match s1 with
      | [] => none
      | c :: cs => if c.isDigit then digitStarThen [c] closeThen cs else none)
    s

/-- The `[&?]` character class followed by the rest of the pattern. -/
def ampThen (s1 : List Char) : Option (List Char) :=
  match s1 with
  | [] => none
  | c :: cs => if c = '&' ∨ c = '?' then matchAfterAmp cs else none

/-- The part of the pattern after the opening `<`:
`[^>]*[&?]page=(\d+)[^>]*>; rel="last"`. -/
def matchAfterLt (s : List Char) : Option (List Char) :=
  starNotGtThen ampThen s

/-- Embedding of `String.prototype.match` without the global flag: scan for the leftmost
position at which the pattern matches (the pattern starts with the literal
`<`, so only `<` positions can succeed). -/
def scanMatch : List Char → Option (List Char)
  | [] => none
  | c :: cs =>
    if c = '<' then
      match matchAfterLt cs with
      | some ds => some ds
      | none => scanMatch cs
    else scanMatch cs

/-- Embedding of `parseInt` on the captured group: the capture is `\d+`, i.e. a nonempty
string of ASCII decimal digits, on which `parseInt` is plain base-10
evaluation. -/
def parseIntDigits (ds : List Char) : Nat :=
  ds.foldl (fun n c => 10 * n + (c.toNat - 48)) 0

/-- Embedding of `GitHubService.getLastPage`.  `linkHeader` is `headers.get('Link')`
(`null` embedded as `none`); note `!linkHeader` is also true for the empty
string. -/
def getLastPage (linkHeader : Option String) : Nat :=
  match linkHeader with
  | none => 1
  | some h =>
    if h = "" then 1
    else
      match scanMatch h.data with
      | some ds => parseIntDigits ds
      | none => 1

/-! ## Page fetch: `GitHubService.fetchPage`

```ts
private async fetchPage(username: string, page: number): Promise<Response> {
  const response = await fetch(
    `https://api.github.com/users/${username}/starred?page=${page}&per_page=100`, ...);
  if (!response.ok) {
    throw new Error(`Failed to fetch page ${page}: ${response.statusText}`);
  }
  return response;
}
```

The HTTP transport is embedded as an environment mapping (username, page)
to the outcome of `fetch`: either a transport-level rejection (abort,
disconnect — `fetch` rejects and the exception propagates) or a `Response`
whose relevant observables are its status, status text, `Link` header
and JSON body. `Response.ok` is derived from the status
(`200 <= status < 300`), as the Fetch standard defines it. -/

/-- The observables of a `Response` used by the service: `status` /
`statusText`, `headers.get('Link')` and the JSON array body. -/
structure PageResponse where
  status : Nat
  statusText : String
  linkHeader : Option String
  items : List Repository
deriving Repr, DecidableEq

/-- Embedding of `Response.ok`: status in the inclusive range 200–299. -/
def PageResponse.ok (r : PageResponse) : Bool :=
  200 ≤ r.status && r.status < 300

/-- Outcome of one `fetch` call: transport-level rejection, or a response. -/
inductive FetchOutcome where
  | transportError (msg : String)
  | response (r : PageResponse)
deriving Repr, DecidableEq

/-- The remote server: one `FetchOutcome` per (username, page) request. -/
def FetchEnv : Type := String → Nat → FetchOutcome

/-- Embedding of `GitHubService.fetchPage`: propagate transport rejections unchanged;
throw the single generic `Failed to fetch page …` error on every non-ok
response; otherwise return the response. -/
def fetchPage (env : FetchEnv) (username : String) (page : Nat) :
    Except String PageResponse :=
  match env username page with
  | .transportError msg => .error msg
  | .response r =>
    if r.ok then .ok r
    else .error ("Failed to fetch page " ++ toString page ++ ": " ++ r.statusText)

/-! ## Fetch orchestration: `GitHubService.fetchAllStarredRepos` -/

/-- Embedding of `Promise.all` over an array built by `map`: every element promise is
created, and the join is an error as soon as any element is an error
(in the embedding, the first erroring index), otherwise the ordered list
of all results.  `Promise.all` preserves input-array order. -/
def promiseAll {α ε β : Type} (f : α → Except ε β) : List α → Except ε (List β)
  | [] => .ok []
  | a :: as =>
    match f a with
    | .error e => .error e
    | .ok b =>
      match promiseAll f as with
      | .error e => .error e
      | .ok bs => .ok (b :: bs)

instance {ε α : Type _} [DecidableEq ε] [DecidableEq α] :
    DecidableEq (Except ε α) := fun a b =>
  match a, b with
  | .error e, .error f =>
    if h : e = f then isTrue (by rw [h])
    else isFalse (by intro hh; cases hh; exact h rfl)
  | .error _, .ok _ => isFalse (by intro h; cases h)
  | .ok _, .error _ => isFalse (by intro h; cases h)
  | .ok x, .ok y =>
    if h : x = y then isTrue (by rw [h])
    else isFalse (by intro hh; cases hh; exact h rfl)

/-- Observable behaviour of one `fetchAllStarredRepos` call: the returned
(or thrown) value, the ordered `onProgress` invocations `(current, total)`,
and the pages for which a network request was issued. -/
structure FetchRun where
  result : Except String (List Repository)
  progressCalls : List (Nat × Nat)
  requestedPages : List Nat
deriving Repr, DecidableEq

/-- JS truthiness of `this.token`: `null` (never set, or constructed from
`token || null` on an empty string) and the empty string (set via
`setToken('')`) are both falsy. -/
def tokenFalsy : Option String → Bool
  | none => true
  | some t => t = ""

/-- Embedding of `GitHubService.fetchAllStarredRepos`:

```ts
if (!this.token) { throw new Error('GitHub token required'); }
const firstPageResponse = await this.fetchPage(username, 1);
const linkHeader = firstPageResponse.headers.get('Link');
const totalPages = this.getLastPage(linkHeader);
const firstPageData = await firstPageResponse.json();
onProgress(firstPageData.length, totalPages * 100);
let allRepos = firstPageData;
if (totalPages > 1) {
  const pagePromises = Array.from({ length: totalPages - 1 }, (_, i) =>
    this.fetchPage(username, i + 2));
  const responses = await Promise.all(pagePromises);
  const remainingRepos = await Promise.all(
    responses.map(async (response, index) => {
      const repos = await response.json();
      onProgress((index + 2) * 100, totalPages * 100);
      return repos;
    }));
  allRepos = [...allRepos, ...remainingRepos.flat()];
}
return allRepos;
```

All page-2.. promises are created up front (so those pages are requested
even when one of them fails); the per-page `onProgress` calls only happen
after every response has arrived, in array (= page) order. -/
def fetchAllStarredRepos (token : Option String) (env : FetchEnv)
    (username : String) : FetchRun :=
  if tokenFalsy token then
    ⟨.error ("GitHub token required"), [], []⟩
  else
    match fetchPage env username 1 with
    | .error e => ⟨.error e, [], [1]⟩
    | .ok firstPageResponse =>
      let totalPages := getLastPage firstPageResponse.linkHeader
      let firstPageData := firstPageResponse.items
      let firstCall := (firstPageData.length, totalPages * 100)
      if totalPages > 1 then
        let laterPages := (List.range (totalPages - 1)).map (fun i => i + 2)
        match promiseAll (fun i => fetchPage env username (i + 2))
            (List.range (totalPages - 1)) with
        | .error e => ⟨.error e, [firstCall], 1 :: laterPages⟩
        | .ok responses =>
          ⟨.ok (firstPageData ++ (responses.map (·.items)).flatten),
            firstCall ::
              (List.range responses.length).map
                (fun index => ((index + 2) * 100, totalPages * 100)),
            1 :: laterPages⟩
      else ⟨.ok firstPageData, [firstCall], [1]⟩

/-! ## Cache: `DbService.put`, `StarsDbService.saveStars` / `getCachedStars`

```ts
protected put(record: RecordType): Promise<void> { ... store.put(record) ... }

async saveStars(stars: Repository[]): Promise<void> {
  await Promise.all(
    stars.map((star) => this.put({ id: star.id, repository: star, timestamp: Date.now() }))
  );
}

async getCachedStars(): Promise<Repository[]> {
  const result = await this.getAll();
  return result.map((record) => record.repository);
}
```

The `stars` object store is keyed by `id` (`keyPath: 'id'`); it is embedded
as a list of records with at most one record per id.  `IDBObjectStore.put`
inserts a fresh record or overwrites the record with the same key; it never
removes records.

Each `put` runs as its own IndexedDB transaction; the individual request
either succeeds or fails, and each settles at its own time, independently
of the others.  This is embedded by a `PutBehavior` oracle assigning each
item a failure flag and a settlement time.  `Promise.all` over the put
promises fulfills, once every promise has fulfilled, at the latest
settlement time, and rejects at the settlement time of the **first**
rejecting promise — the remaining puts still run to completion in the
background, so their writes land in the store either way. -/

/-- Embedding of `IDBObjectStore.put` on a store with `keyPath: 'id'`:
overwrite the record with the same key when present, append otherwise. -/
def dbPut (store : List RepositoryRecord) (record : RepositoryRecord) :
    List RepositoryRecord :=
  if store.any (fun r => r.id == record.id) then
    store.map (fun r => if r.id == record.id then record else r)
  else store ++ [record]

/-- Fault/timing oracle for one item's individual `put` request. -/
structure PutBehavior where
  fails : Bool
  settleTime : Nat

/-- Settlement of the `Promise.all` join in `saveStars`: fulfilled or
rejected, at a given time. -/
inductive SaveOutcome where
  | fulfilled (t : Nat)
  | rejected (t : Nat)
deriving Repr, DecidableEq

/-- Store contents after all the individual puts of a `saveStars` call have
run: a failing put leaves the store untouched, a successful one writes its
record.  (The puts are concurrent and independent; with at most one record
per item id, the result does not depend on their interleaving, so they are
folded in item order.) -/
def applyPuts (beh : Repository → PutBehavior) (now : Nat)
    (store : List RepositoryRecord) : List Repository → List RepositoryRecord
  | [] => store
  | star :: rest =>
    applyPuts beh now
      (if (beh star).fails then store else dbPut store ⟨star.id, star, now⟩) rest

/-- Embedding of `StarsDbService.saveStars`: fan out one `put` per item
(each stamped with the current time) and join with `Promise.all`.  Returns
the join's settlement and the eventual store contents. -/
def saveStars (beh : Repository → PutBehavior) (now : Nat)
    (store : List RepositoryRecord) (stars : List Repository) :
    SaveOutcome × List RepositoryRecord :=
  (match (stars.filter (fun s => (beh s).fails)).map (fun s => (beh s).settleTime) with
    | [] => .fulfilled ((stars.map (fun s => (beh s).settleTime)).foldr max 0)
    | t :: ts => .rejected (ts.foldl min t),
   applyPuts beh now store stars)

/-- Embedding of `StarsDbService.getCachedStars`: `getAll()` then project
each record to its repository snapshot. -/
def getCachedStars (store : List RepositoryRecord) : List Repository :=
  store.map (·.repository)

/-- Behaviour oracle under which every put succeeds (settling immediately). -/
def putOk : Repository → PutBehavior := fun _ => ⟨false, 0⟩

/-- One call against the stars cache service. -/
inductive CacheOp where
  | save (beh : Repository → PutBehavior) (now : Nat) (stars : List Repository)
  | load

/-- Store contents after a sequence of service calls (`getCachedStars` is a
read-only `getAll` and does not change the store). -/
def runOps (store : List RepositoryRecord) : List CacheOp → List RepositoryRecord
  | [] => store
  | .save beh now stars :: rest => runOps (saveStars beh now store stars).2 rest
  | .load :: rest => runOps store rest

/-- Key set of the cache. -/
def cachedIds (store : List RepositoryRecord) : List Int :=
  store.map (·.id)

/-! ## Search: `search.ts`

```ts
export function createFuseInstance(repos) {
  const fuseOptions = {
    keys: [ { name: 'name', weight: 0.4 }, { name: 'description', weight: 0.3 },
            { name: 'owner.login', weight: 0.2 }, { name: 'language', weight: 0.1 } ],
    threshold: 0.3, distance: 100, minMatchCharLength: 2, includeScore: true };
  return new Fuse(repos, fuseOptions);
}
```

`fuse.js` is an external dependency (not part of this repository's source),
so its matcher is modelled from the spec, see `fuseSearch`.  The
`Array.prototype.sort` calls are embedded as a stable sort driven by the
source's numeric comparators (ECMAScript requires sort stability, and every
comparator below is a consistent comparator). -/

/-- An element of a `fuse.js` result list: `{ item, score? }`.  The
no-search-term path of `searchRepositories` builds elements without a
`score`. -/
structure ScoredRepo where
  item : Repository
  score : Option ℚ
deriving Repr, DecidableEq

/-- The four values of the `sortBy` union type. -/
inductive SortKey where
  | stars
  | name
  | updated
  | relevance
deriving Repr, DecidableEq

/-- Stable insertion step: place `x` after every element strictly smaller
under the comparator, before the first other element (so that elements
comparing equal keep their original relative order). -/
def insertCmp {α : Type} (cmp : α → α → ℚ) (x : α) : List α → List α
  | [] => [x]
  | y :: ys => if cmp y x < 0 then y :: insertCmp cmp x ys else x :: y :: ys

/-- Embedding of `Array.prototype.sort(comparator)` for a consistent
comparator: the unique stable sort for the induced preorder. -/
def jsSortBy {α : Type} (cmp : α → α → ℚ) (l : List α) : List α :=
  l.foldr (insertCmp cmp) []

/-- Lexicographic three-way comparison of key lists (values `-1`, `0`, `1`;
`0` exactly on equal lists). -/
def lexCmp : List Nat → List Nat → ℚ
  | [], [] => 0
  | [], _ :: _ => -1
  | _ :: _, [] => 1
  | a :: as, b :: bs => if a < b then -1 else if b < a then 1 else lexCmp as bs

/-- Primary collation key: the character sequence, case folded. -/
def lowerKey (s : String) : List Nat :=
  s.data.map (fun c => c.toLower.toNat)

/-- Tertiary collation key: per-character case, lowercase before uppercase. -/
def caseKey (s : String) : List Nat :=
  s.data.map (fun c => if c.isLower then 0 else 1)

/-- Modelled from the spec: `String.prototype.localeCompare` (a JS builtin,
external to this repository) — "ascending, locale-aware string comparison"
with case-respecting locale order, i.e. default-locale collation comparing
the case-folded text first and breaking full primary ties by case,
lowercase first (so `alpha < Alpha < zeta`). -/
def localeCompare (a b : String) : ℚ :=
  if lexCmp (lowerKey a) (lowerKey b) = 0 then lexCmp (caseKey a) (caseKey b)
  else lexCmp (lowerKey a) (lowerKey b)

/-- Modelled from the spec: `new Date(s).getTime()` (a JS builtin, external
to this repository) on the `updatedAt` "ISO-8601 timestamp string" — the
claims depend only on the chronological order of parsed timestamps, which
for fixed-width UTC ISO-8601 strings coincides with the numeric order of
their digit sequences, so the embedding uses that order-isomorphic value
rather than epoch milliseconds. -/
def dateValue (s : String) : Nat :=
  parseIntDigits (s.data.filter Char.isDigit)

/-- The comparator passed to `repos.sort((a, b) => ...)` in
`sortRepositories`, by `sortBy`:

```ts
case 'relevance': return (a.score ?? 0) - (b.score ?? 0);
case 'stars':     return b.item.stargazers_count - a.item.stargazers_count;
case 'name':      return a.item.name.localeCompare(b.item.name);
case 'updated':   return new Date(b.item.updated_at).getTime()
                       - new Date(a.item.updated_at).getTime();
```
(the `default: return 0` branch is unreachable: `sortBy` has only these
four values). -/
def sortCmp (sortBy : SortKey) (a b : ScoredRepo) : ℚ :=
  match sortBy with
  | .relevance => a.score.getD 0 - b.score.getD 0
  | .stars => ((b.item.stargazers_count : ℚ)) - ((a.item.stargazers_count : ℚ))
  | .name => localeCompare a.item.name b.item.name
  | .updated => ((dateValue b.item.updated_at : ℚ)) - ((dateValue a.item.updated_at : ℚ))

/-- Embedding of `sortRepositories`: sort the `{item, score}` results with
the comparator for `sortBy`, then project to the items. -/
def sortRepositories (repos : List ScoredRepo) (sortBy : SortKey) :
    List Repository :=
  (jsSortBy (sortCmp sortBy) repos).map (·.item)

/-- Modelled from the spec: the weighted per-field match of the `fuse.js`
index (external dependency, "any reasonable … fuzzy-match implementation
satisfying the weighted-field and score-ordering contract in §4.5 is
acceptable").  A field matches when it contains the trimmed search term
case-insensitively; a missing (`null`) field never matches.  The score of a
matching repository is taken from its best (highest-weight) matching field,
`(1 - weight) * threshold`, giving a value in `(0, threshold]` — lower is
better, and better-weighted fields score lower.

`String.trim`/`String.toLower` of the Lean core library are not used (the
source is JavaScript, whose `trim`/`toLowerCase` these embed): -/
def strTrim (s : String) : String :=
  ⟨((s.data.dropWhile Char.isWhitespace).reverse.dropWhile
      Char.isWhitespace).reverse⟩

/-- Embedding of `String.prototype.toLowerCase` (character-wise case
folding) at the character-list level. -/
def lowerChars (s : String) : List Char :=
  s.data.map Char.toLower

def containsSeq (pat : List Char) : List Char → Bool
  | [] => pat.isPrefixOf []
  | c :: cs => pat.isPrefixOf (c :: cs) || containsSeq pat cs

/-- Case-insensitive containment of the search term in one field; see
`fuseScore`. -/
def fieldMatches (field : Option String) (pat : String) : Bool :=
  match field with
  | none => false
  | some f => containsSeq (lowerChars pat) (lowerChars f)

/-- Modelled from the spec: the score `fuse.js` attaches to a matching
repository, over the four weighted keys `name` (0.4), `description` (0.3),
`owner.login` (0.2), `language` (0.1); `none` when no field matches. -/
def fuseScore (r : Repository) (pat : String) : Option ℚ :=
  if fieldMatches (some r.name) pat then some ((1 - 4/10) * 3/10)
  else if fieldMatches r.description pat then some ((1 - 3/10) * 3/10)
  else if fieldMatches (some r.owner.login) pat then some ((1 - 2/10) * 3/10)
  else if fieldMatches r.language pat then some ((1 - 1/10) * 3/10)
  else none

/-- Modelled from the spec: `fuse.search(term)` with the options of
`createFuseInstance` — `minMatchCharLength: 2` makes a term with fewer than
2 (trimmed) characters return no results ("deliberate minimum-match-length
policy"); otherwise the matching repositories are returned with their
scores, ranked ascending by score, ties in collection order. -/
def fuseSearch (repos : List Repository) (term : String) : List ScoredRepo :=
  if (strTrim term).length < 2 then []
  else
    jsSortBy (sortCmp .relevance)
      (repos.filterMap
        (fun r => (fuseScore r (strTrim term)).map (fun sc => ⟨r, some sc⟩)))

/-- Embedding of `searchRepositories`:

```ts
if (!searchTerm.trim()) {
  const allResults = repos.map((item) => ({ item }));
  return sortRepositories(allResults, sortBy);
}
const fuse = createFuseInstance(repos);
const searchResults = fuse.search(searchTerm);
if (searchResults.length === 0) { return []; }
return sortRepositories(searchResults, sortBy);
``` -/
def searchRepositories (repos : List Repository) (searchTerm : String)
    (sortBy : SortKey) : List Repository :=
  if strTrim searchTerm = "" then
    sortRepositories (repos.map (fun item => ⟨item, none⟩)) sortBy
  else
    let searchResults := fuseSearch repos searchTerm
    if searchResults.length = 0 then []
    else sortRepositories searchResults sortBy

/-- Iterated `saveStars` (all puts succeeding) of the same collection,
once per entry of `times` (each call stamps its own `Date.now()`). -/
def saveStarsTimes (stars : List Repository) (times : List Nat)
    (store : List RepositoryRecord) : List RepositoryRecord :=
  times.foldl (fun st t => (saveStars putOk t st stars).2) store

/-! ## Concrete fixtures (mirroring the repository's test data) -/

/-- Fixture repository 1 (cf. `mockRepos` in `search.test.ts`). -/
def sampleRepo1 : Repository :=
  ⟨1, "awesome-react", some ("A collection of awesome React components"),
    "https://github.com/user1/awesome-react", some ("JavaScript"), 1500,
    "2023-12-01T00:00:00Z", ⟨"user1"⟩⟩

/-- Fixture repository 2. -/
def sampleRepo2 : Repository :=
  ⟨2, "vue-components", some ("Vue.js component library"),
    "https://github.com/user2/vue-components", some ("Vue"), 800,
    "2023-11-15T00:00:00Z", ⟨"user2"⟩⟩

/-- Fixture repository 3. -/
def sampleRepo3 : Repository :=
  ⟨3, "typescript-utils", some ("Utility functions for TypeScript projects"),
    "https://github.com/user1/typescript-utils", some ("TypeScript"), 2000,
    "2023-12-15T00:00:00Z", ⟨"user1"⟩⟩

/-- Server with three pages of one repository each (the `Link` header of
page 1 announces `page=3` as `rel="last"`). -/
def envThreePages : FetchEnv := fun _ p =>
  if p = 1 then
    .response ⟨200, "OK",
      some ("<https://api.github.com/users/u/starred?page=3&per_page=100>; rel=\"last\""),
      [sampleRepo1]⟩
  else if p = 2 then .response ⟨200, "OK", none, [sampleRepo2]⟩
  else .response ⟨200, "OK", none, [sampleRepo3]⟩

/-- Server with a single page holding one repository (no `Link` header). -/
def envOnePage : FetchEnv := fun _ _ =>
  .response ⟨200, "OK", none, [sampleRepo1]⟩

/-- Put behaviour in which the item with id 1 fails fast (settling at time
1) and every other write succeeds slowly (settling at time 5). -/
def behRejectId1 : Repository → PutBehavior := fun r =>
  if r.id = 1 then ⟨true, 1⟩ else ⟨false, 5⟩

/-! ## Helper lemmas on the regex matcher -/

/-- Consuming one more non-`>` character is transparent when the
continuation fails at the current position. -/
theorem starNotGt_skip {k : List Char → Option (List Char)} {c : Char}
    {cs : List Char} (hc : c ≠ '>') (hk : k (c :: cs) = none) :
    starNotGtThen k (c :: cs) = starNotGtThen k cs := by
  rw [starNotGtThen, if_neg hc]
  cases h : starNotGtThen k cs <;> simp [h, hk]

/-- The greedy `[^>]*` cannot consume a `>`. -/
theorem starNotGt_stop {k : List Char → Option (List Char)} {cs : List Char} :
    starNotGtThen k ('>' :: cs) = k ('>' :: cs) := by
  rw [starNotGtThen]
  simp

/-- The `[&?]` class rejects any other head character. -/
theorem ampThen_cons_ne {c : Char} {cs : List Char}
    (h1 : c ≠ '&') (h2 : c ≠ '?') : ampThen (c :: cs) = none := by
  simp [ampThen, h1, h2]

/-! ## C5: credential gate -/

/-- C5.  Calling the fetcher with an unset (`null`) or empty credential
fails immediately with the missing-credential error (`'GitHub token
required'`), issues no network request, and reports no progress — for
every server behaviour, subject and page contents. -/
theorem fetchAllStarredRepos_credential_gate :
    ∀ (env : FetchEnv) (username : String),
      fetchAllStarredRepos none env username =
        ⟨.error ("GitHub token required"), [], []⟩ ∧
      fetchAllStarredRepos (some ("")) env username =
        ⟨.error ("GitHub token required"), [], []⟩ := by
  intro env username
  constructor <;> rfl

/-! ## C1: error classification of a page fetch -/

/-- C1 fails on the code: `fetchPage` maps every non-2xx response to the
single generic error `Failed to fetch page {page}: {statusText}`.  The
claimed five-class distinction does not exist: an HTTP 401 (claimed
`AuthenticationFailed`) and an HTTP 5xx (claimed `UpstreamServerError`)
with the same status text surface to the caller as the *same* error, so no
caller can distinguish them. -/
theorem fetchPage_same_error_401_and_500 :
    fetchPage (fun _ _ => .response ⟨401, "Boom", none, []⟩) "user" 1 =
      fetchPage (fun _ _ => .response ⟨500, "Boom", none, []⟩) "user" 1 ∧
    fetchPage (fun _ _ => .response ⟨401, "Boom", none, []⟩) "user" 1 =
      .error ("Failed to fetch page 1: Boom") := by
  constructor <;> decide

/-- C1 (amended).  For every page request whose response is not successful
(`response.ok` false), the page fetch fails with the one generic error
`Failed to fetch page {page}: {statusText}` regardless of the status code
(401, 403 rate-limited and 5xx included), and a transport-level
abort/disconnect propagates as the transport's own error message; the
surfaced error distinguishes the failing page and status text only, not
the five spec classes. -/
theorem fetchPage_generic_error :
    ∀ (env : FetchEnv) (username : String) (page : Nat) (r : PageResponse)
      (msg : String),
      (env username page = .response r → r.ok = false →
        fetchPage env username page =
          .error ("Failed to fetch page " ++ toString page ++ ": " ++ r.statusText)) ∧
      (env username page = .transportError msg →
        fetchPage env username page = .error msg) := by
  intro env username page r msg
  constructor
  · intro hr hok
    rw [fetchPage, hr]
    simp [hok]
  · intro hr
    rw [fetchPage, hr]

/-- Witness for `fetchPage_generic_error` at a concrete 404 response and a
concrete aborted transport. -/
theorem fetchPage_generic_error_witness :
    fetchPage (fun _ _ => .response ⟨404, "Not Found", none, []⟩) "user" 1 =
      .error ("Failed to fetch page 1: Not Found") ∧
    fetchPage (fun _ _ => .transportError ("Failed to fetch")) "user" 1 =
      .error ("Failed to fetch") := by
  constructor
  · have h :=
      (fetchPage_generic_error (fun _ _ => .response ⟨404, "Not Found", none, []⟩)
        "user" 1 ⟨404, "Not Found", none, []⟩ "").1 rfl (by decide)
    rw [h]
    decide
  · exact
      (fetchPage_generic_error (fun _ _ => .transportError ("Failed to fetch"))
        "user" 1 ⟨404, "", none, []⟩ ("Failed to fetch")).2 rfl

/-! ## C3: pagination planner -/

/-- Decimal digits are none of the structural characters of the pattern. -/
theorem digit_not_special {c : Char} (h : c.isDigit = true) :
    c ≠ '>' ∧ c ≠ '&' ∧ c ≠ '?' := by
  refine ⟨?_, ?_, ?_⟩ <;> (intro heq; subst heq; exact absurd h (by decide))

/-- Skipping a whole segment in which the `[&?]` continuation can never
fire. -/
theorem starNotGt_ampThen_seg {seg rest : List Char}
    (hseg : ∀ c ∈ seg, c ≠ '>' ∧ c ≠ '&' ∧ c ≠ '?') :
    starNotGtThen ampThen (seg ++ rest) = starNotGtThen ampThen rest := by
  induction seg with
  | nil => rfl
  | cons c cs ih =>
    obtain ⟨h1, h2, h3⟩ := hseg c (by simp)
    rw [List.cons_append, starNotGt_skip h1 (ampThen_cons_ne h2 h3)]
    exact ih (fun c hc => hseg c (by simp [hc]))

/-- A list is a `Bool`-valued prefix of itself extended by anything. -/
theorem isPrefixOf_append_self {α : Type} [DecidableEq α] (l r : List α) :
    l.isPrefixOf (l ++ r) = true := by
  induction l with
  | nil => simp [List.isPrefixOf]
  | cons a as ih => simp [List.isPrefixOf, ih]

/-- Greedy `\d*`: with a continuation that succeeds on the full digit run,
the full run is consumed and captured. -/
theorem digitStarThen_digits {ds rest : List Char}
    {k : List Char → List Char → Option (List Char)} {r : List Char}
    (hdig : ∀ c ∈ ds, c.isDigit = true)
    (hrest : ∀ c, rest.head? = some c → c.isDigit = false) :
    ∀ acc : List Char, k (acc.reverse ++ ds) rest = some r →
      digitStarThen acc k (ds ++ rest) = some r := by
  induction ds with
  | nil =>
    intro acc hk
    rw [List.append_nil] at hk
    cases rest with
    | nil => simpa [digitStarThen] using hk
    | cons c cs =>
      have hc : c.isDigit = false := hrest c rfl
      rw [List.nil_append, digitStarThen, if_neg (by simp [hc])]
      exact hk
  | cons d ds ih =>
    intro acc hk
    have hd : d.isDigit = true := hdig d (by simp)
    have hrec : digitStarThen (d :: acc) k (ds ++ rest) = some r := by
      refine ih (fun c hc => hdig c (by simp [hc])) (d :: acc) ?_
      simpa [List.append_assoc] using hk
    rw [List.cons_append, digitStarThen, if_pos hd, hrec]

/-- Full evaluation of the pattern on a well-formed `rel="last"` entry with
an arbitrary nonempty page-number digit run `ds`: the match succeeds and
captures exactly `ds`. -/
theorem matchAfterLt_parses {ds : List Char} (hne : ds ≠ [])
    (hdig : ∀ c ∈ ds, c.isDigit = true) :
    matchAfterLt
        (("https://a?page=".data ++ ds) ++ (">; rel=\"last\"".data)) =
      some ds := by
  have hseg1 : "https://a?page=".data =
      ['h','t','t','p','s',':','/','/','a'] ++
        ('?' :: "page=".data) := by decide
  have htail : ">; rel=\"last\"".data = '>' :: ("; rel=\"last\"".data) := by decide
  rw [matchAfterLt, hseg1]
  rw [List.append_assoc, List.append_assoc]
  rw [starNotGt_ampThen_seg (by decide)]
  have hinner :
      starNotGtThen ampThen
        ("page=".data ++ (ds ++ (">; rel=\"last\"".data))) = none := by
    rw [show ("page=".data ++ (ds ++ (">; rel=\"last\"".data))) =
          (("page=".data ++ ds) ++ (">; rel=\"last\"".data)) by
        rw [List.append_assoc]]
    rw [htail, starNotGt_ampThen_seg, starNotGt_stop]
    · exact ampThen_cons_ne (by decide) (by decide)
    · intro c hc
      rcases List.mem_append.1 hc with h | h
      · exact (by decide :
          ∀ c, c ∈ "page=".data → c ≠ '>' ∧ c ≠ '&' ∧ c ≠ '?') c h
      · exact digit_not_special (hdig c h)
  rw [List.cons_append, starNotGtThen, if_neg (by decide), hinner]
  show ampThen ('?' :: ("page=".data ++ (ds ++ _))) = some ds
  rw [ampThen, if_pos (by simp), matchAfterAmp, litThen,
    if_pos (isPrefixOf_append_self _ _), List.drop_left]
  cases ds with
  | nil => exact absurd rfl hne
  | cons d dstl =>
    have hd : d.isDigit = true := hdig d (by simp)
    rw [List.cons_append]
    show (if d.isDigit then digitStarThen [d] closeThen (dstl ++ _) else none) =
      some (d :: dstl)
    rw [if_pos hd]
    refine digitStarThen_digits (fun c hc => hdig c (by simp [hc]))
      (by rw [htail]; intro c hc; cases hc; decide) [d] ?_
    show closeThen (d :: dstl) (">; rel=\"last\"".data) = some (d :: dstl)
    rfl

/-- C3 fails on the code: `getLastPage` is total and defaults to 1, but its
result is *not* always `≥ 1` — a header whose `rel="last"` URL carries
`page=0` makes it return `0`. -/
theorem getLastPage_not_ge_one :
    ¬ (∀ h : Option String, 1 ≤ getLastPage h) := by
  intro hall
  exact absurd (hall (some ("<https://a?page=0>; rel=\"last\""))) (by decide)

/-- C3 (amended).  `getLastPage` is a total function from an optional
header string to a *nonnegative* integer that never throws: it returns 1
when the header is null/absent or empty, and whenever the pattern does not
match (no `rel="last"` entry, or no parseable `page` query parameter in
it); for a header containing an entry of the form `<…?page=k>; rel="last"`
it returns the base-10 value of the captured digits `k` (e.g. `page=5`
yields 5) — including `k = 0`, in which case the result is `0`, not `≥ 1`. -/
theorem getLastPage_spec :
    getLastPage none = 1 ∧
    getLastPage (some ("")) = 1 ∧
    (∀ h : String, scanMatch h.data = none → getLastPage (some h) = 1) ∧
    (∀ ds : List Char, ds ≠ [] → (∀ c ∈ ds, c.isDigit = true) →
      getLastPage
          (some ("<https://a?page=" ++ String.mk ds ++ ">; rel=\"last\"")) =
        parseIntDigits ds) ∧
    getLastPage
        (some ("<https://api.github.com/users/testuser/starred?page=5&per_page=100>; rel=\"last\"")) =
      5 := by
  refine ⟨rfl, rfl, ?_, ?_, by decide⟩
  · intro h hscan
    rw [getLastPage]
    split
    · rfl
    · rw [hscan]
  · intro ds hne hdig
    have hdata :
        ("<https://a?page=" ++ String.mk ds ++ ">; rel=\"last\"").data =
          '<' :: (("https://a?page=".data ++ ds) ++ (">; rel=\"last\"".data)) := by
      simp [String.data_append]
    have hnonempty :
        ("<https://a?page=" ++ String.mk ds ++ ">; rel=\"last\"") ≠ "" := by
      intro heq
      have := congrArg String.data heq
      rw [hdata] at this
      exact List.cons_ne_nil _ _ this
    rw [getLastPage, if_neg hnonempty, hdata, scanMatch, if_pos rfl,
      matchAfterLt_parses hne hdig]

/-- Witness for `getLastPage_spec`: a malformed header defaults to 1, and
the page number 50 round-trips through the header parse. -/
theorem getLastPage_spec_witness :
    getLastPage (some ("invalid-link-header")) = 1 ∧
    getLastPage
        (some ("<https://a?page=" ++ String.mk ['5', '0'] ++ ">; rel=\"last\"")) =
      50 := by
  constructor
  · exact getLastPage_spec.2.2.1 ("invalid-link-header") (by decide)
  · rw [getLastPage_spec.2.2.2.1 ['5', '0'] (by decide) (by decide)]
    decide

/-! ## Helper lemmas on the cache -/

/-- An `IDBObjectStore.put` leaves its own record in the store. -/
theorem dbPut_mem_self (store : List RepositoryRecord)
    (rec : RepositoryRecord) : rec ∈ dbPut store rec := by
  rw [dbPut]
  split
  · rename_i hany
    obtain ⟨r, hr, hid⟩ := List.any_eq_true.1 hany
    exact List.mem_map.2 ⟨r, hr, by simp [hid]⟩
  · simp

/-- An `IDBObjectStore.put` does not disturb records under other keys. -/
theorem dbPut_mem_of_ne {store : List RepositoryRecord}
    {rec old : RepositoryRecord} (hmem : old ∈ store)
    (hne : old.id ≠ rec.id) : old ∈ dbPut store rec := by
  rw [dbPut]
  split
  · refine List.mem_map.2 ⟨old, hmem, ?_⟩
    rw [if_neg (by simpa using hne)]
  · exact List.mem_append_left _ hmem

/-- Puts for other ids preserve an existing record. -/
theorem applyPuts_mem_of_fresh {beh : Repository → PutBehavior} {now : Nat}
    {stars : List Repository} {rec : RepositoryRecord} :
    ∀ {store : List RepositoryRecord}, rec ∈ store →
      (∀ s ∈ stars, s.id ≠ rec.id) → rec ∈ applyPuts beh now store stars := by
  induction stars with
  | nil => intro store hmem _; exact hmem
  | cons x rest ih =>
    intro store hmem hfresh
    rw [applyPuts]
    refine ih ?_ (fun t ht => hfresh t (by simp [ht]))
    split
    · exact hmem
    · exact dbPut_mem_of_ne hmem (fun h => hfresh x (by simp) h.symm)

/-- Every non-failing item of a `saveStars` batch with pairwise-distinct
ids ends up in the store with the batch timestamp. -/
theorem applyPuts_mem_success {beh : Repository → PutBehavior} {now : Nat} :
    ∀ {stars : List Repository}, (stars.map (·.id)).Nodup →
      ∀ (store : List RepositoryRecord), ∀ s ∈ stars, (beh s).fails = false →
        (⟨s.id, s, now⟩ : RepositoryRecord) ∈ applyPuts beh now store stars := by
  intro stars
  induction stars with
  | nil => intro _ store s hs; exact absurd hs (List.not_mem_nil s)
  | cons x rest ih =>
    intro hids store s hs hfail
    have hx : x.id ∉ rest.map (·.id) := (List.nodup_cons.1 (by simpa using hids)).1
    rcases List.mem_cons.1 hs with rfl | hs
    · rw [applyPuts, if_neg (by simp [hfail])]
      refine applyPuts_mem_of_fresh (dbPut_mem_self _ _) ?_
      intro t ht heq
      exact hx (List.mem_map.2 ⟨t, ht, heq⟩)
    · rw [applyPuts]
      exact ih (List.nodup_cons.1 (by simpa using hids)).2 _ s hs hfail

/-- With at least one failing put, the `Promise.all` join rejects. -/
theorem saveStars_fst_rejected {beh : Repository → PutBehavior} {now : Nat}
    {store : List RepositoryRecord} {stars : List Repository}
    (h : stars.filter (fun s => (beh s).fails) ≠ []) :
    ∃ t, (saveStars beh now store stars).1 = .rejected t := by
  rw [saveStars]
  cases hf : (stars.filter (fun s => (beh s).fails)).map
      (fun s => (beh s).settleTime) with
  | nil => exact absurd (List.map_eq_nil_iff.1 hf) h
  | cons t ts => exact ⟨ts.foldl min t, by simp [hf]⟩

/-- With no failing put, the `Promise.all` join fulfills at the latest
settlement time. -/
theorem saveStars_fst_fulfilled {beh : Repository → PutBehavior} {now : Nat}
    {store : List RepositoryRecord} {stars : List Repository}
    (h : stars.filter (fun s => (beh s).fails) = []) :
    (saveStars beh now store stars).1 =
      .fulfilled ((stars.map (fun s => (beh s).settleTime)).foldr max 0) := by
  rw [saveStars]
  simp [h]

/-- Every element of a list of naturals is bounded by the folded maximum. -/
theorem le_foldr_max (l : List Nat) : ∀ x ∈ l, x ≤ l.foldr max 0 := by
  induction l with
  | nil => intro x hx; exact absurd hx (List.not_mem_nil x)
  | cons a as ih =>
    intro x hx
    rcases List.mem_cons.1 hx with rfl | hx
    · exact le_max_left _ _
    · exact le_trans (ih x hx) (le_max_right _ _)

/-! ## C2: concurrent independent upserts -/

/-- C2 fails on the code in its settlement clause: `saveStars` joins the
puts with `Promise.all`, which rejects as soon as the *first* failing put
settles.  With the id-1 put failing at time 1 and the id-2 put succeeding
at time 5, the call rejects at time 1 — strictly before the other write
has settled — even though that write still lands in the store. -/
theorem saveStars_rejects_before_all_settled :
    saveStars behRejectId1 7 [] [sampleRepo1, sampleRepo2] =
      (.rejected 1, [⟨2, sampleRepo2, 7⟩]) ∧ (1 : Nat) < 5 := by
  constructor
  · rfl
  · decide

/-- C2 (amended).  The per-item upserts of `saveStars` are issued
concurrently and independently: with pairwise-distinct ids, if exactly one
item's individual write fails, every other item is still persisted (with
the batch timestamp) while the overall call rejects; when every write
succeeds, the call fulfills only after the last write has settled and
every item is persisted.  (On failure, however, the `Promise.all` join
rejects as soon as the first failing write settles, possibly before the
remaining writes do — those writes still complete in the background.) -/
theorem saveStars_independent_upserts :
    ∀ (beh : Repository → PutBehavior) (now : Nat)
      (store : List RepositoryRecord) (stars : List Repository),
      (stars.map (·.id)).Nodup →
      ((stars.filter (fun s => (beh s).fails)).length = 1 →
        (∃ t, (saveStars beh now store stars).1 = .rejected t) ∧
        ∀ s ∈ stars, (beh s).fails = false →
          (⟨s.id, s, now⟩ : RepositoryRecord) ∈ (saveStars beh now store stars).2) ∧
      (stars.filter (fun s => (beh s).fails) = [] →
        ∃ tf, (saveStars beh now store stars).1 = .fulfilled tf ∧
          (∀ s ∈ stars, (beh s).settleTime ≤ tf) ∧
          (∀ s ∈ stars,
            (⟨s.id, s, now⟩ : RepositoryRecord) ∈ (saveStars beh now store stars).2)) := by
  intro beh now store stars hids
  constructor
  · intro hone
    constructor
    · refine saveStars_fst_rejected ?_
      intro hnil
      rw [hnil] at hone
      exact absurd hone (by decide)
    · intro s hs hfail
      exact applyPuts_mem_success hids store s hs hfail
  · intro hnone
    refine ⟨(stars.map (fun s => (beh s).settleTime)).foldr max 0,
      saveStars_fst_fulfilled hnone, ?_, ?_⟩
    · intro s hs
      exact le_foldr_max _ _ (List.mem_map.2 ⟨s, hs, rfl⟩)
    · intro s hs
      have hfail : (beh s).fails = false := by
        have := (List.filter_eq_nil_iff.1 hnone) s hs
        simpa using this
      exact applyPuts_mem_success hids store s hs hfail

/-- Witness for `saveStars_independent_upserts`: two items, the id-1 write
failing — the call rejects, yet item 2 is persisted; and the all-success
batch persists both. -/
theorem saveStars_independent_upserts_witness :
    ((⟨2, sampleRepo2, 7⟩ : RepositoryRecord) ∈
      (saveStars behRejectId1 7 [] [sampleRepo1, sampleRepo2]).2) ∧
    ((⟨1, sampleRepo1, 7⟩ : RepositoryRecord) ∈
      (saveStars putOk 7 [] [sampleRepo1, sampleRepo2]).2) := by
  constructor
  · exact
      ((saveStars_independent_upserts behRejectId1 7 [] [sampleRepo1, sampleRepo2]
        (by decide)).1 (by decide)).2 sampleRepo2 (by simp) (by decide)
  · obtain ⟨tf, _, _, hall⟩ :=
      (saveStars_independent_upserts putOk 7 [] [sampleRepo1, sampleRepo2]
        (by decide)).2 (by decide)
    exact hall sampleRepo1 (by simp)

/-! ## C9: cache idempotence -/

/-- A put under a fresh key appends its record. -/
theorem dbPut_fresh {store : List RepositoryRecord} {rec : RepositoryRecord}
    (h : ∀ r ∈ store, r.id ≠ rec.id) : dbPut store rec = store ++ [rec] := by
  rw [dbPut, if_neg]
  simp only [List.any_eq_true, not_exists, not_and]
  intro r hr
  simpa using h r hr

/-- Replacing under a key that occurs nowhere in a record list is the
identity. -/
theorem map_replace_skip {recn : RepositoryRecord}
    {l : List RepositoryRecord} (h : ∀ r ∈ l, r.id ≠ recn.id) :
    l.map (fun r => if r.id == recn.id then recn else r) = l := by
  induction l with
  | nil => rfl
  | cons a as ih =>
    rw [List.map_cons, if_neg (by simpa using h a (by simp)),
      ih (fun r hr => h r (by simp [hr]))]

/-- Saving a batch of fresh, pairwise-distinct items appends one record per
item, in batch order. -/
theorem applyPuts_putOk_fresh :
    ∀ (stars : List Repository) (store : List RepositoryRecord) (now : Nat),
      (∀ s ∈ stars, ∀ r ∈ store, r.id ≠ s.id) →
      (stars.map (·.id)).Nodup →
      applyPuts putOk now store stars =
        store ++ stars.map (fun s => ⟨s.id, s, now⟩) := by
  intro stars
  induction stars with
  | nil => intro store now _ _; simp [applyPuts]
  | cons x rest ih =>
    intro store now hfresh hids
    have hx : x.id ∉ rest.map (·.id) := (List.nodup_cons.1 (by simpa using hids)).1
    have hfr : ∀ s ∈ rest, ∀ r ∈ store ++ [(⟨x.id, x, now⟩ : RepositoryRecord)],
        r.id ≠ s.id := by
      intro s hs r hr
      rcases List.mem_append.1 hr with hr | hr
      · exact hfresh s (by simp [hs]) r hr
      · rw [List.mem_singleton.1 hr]
        intro heq
        have heq' : x.id = s.id := heq
        exact hx (List.mem_map.2 ⟨s, hs, heq'.symm⟩)
    have hih := ih (store ++ [⟨x.id, x, now⟩]) now hfr
      (List.nodup_cons.1 (by simpa using hids)).2
    rw [applyPuts, if_neg (by simp [putOk]),
      dbPut_fresh (fun r hr => hfresh x (by simp) r hr), hih]
    simp

/-- Re-saving the not-yet-re-saved suffix of an already cached batch
overwrites exactly those records, giving the fully re-stamped store. -/
theorem applyPuts_putOk_overwrite :
    ∀ (rest done : List Repository) (told tnew : Nat),
      ((done ++ rest).map (·.id)).Nodup →
      applyPuts putOk tnew
          (done.map (fun s => ⟨s.id, s, tnew⟩) ++
            rest.map (fun s => ⟨s.id, s, told⟩)) rest =
        (done ++ rest).map (fun s => ⟨s.id, s, tnew⟩) := by
  intro rest
  induction rest with
  | nil => intro done told tnew _; simp [applyPuts]
  | cons y rest ih =>
    intro done told tnew hids
    have hdisj :
        List.Disjoint (done.map (·.id)) ((y :: rest).map (·.id)) := by
      have := hids
      rw [List.map_append] at this
      exact List.disjoint_of_nodup_append this
    have hydone : ∀ r ∈ done.map (fun s => ⟨s.id, s, tnew⟩),
        RepositoryRecord.id r ≠ y.id := by
      intro r hr heq
      obtain ⟨d, hd, rfl⟩ := List.mem_map.1 hr
      exact hdisj (List.mem_map.2 ⟨d, hd, heq⟩) (by simp)
    have hyrest : ∀ r ∈ rest.map (fun s => ⟨s.id, s, told⟩),
        RepositoryRecord.id r ≠ y.id := by
      have hnd : ((y :: rest).map (·.id)).Nodup := by
        have := hids
        rw [List.map_append] at this
        exact this.of_append_right
      have hy : y.id ∉ rest.map (·.id) := (List.nodup_cons.1 (by simpa using hnd)).1
      intro r hr heq
      obtain ⟨d, hd, rfl⟩ := List.mem_map.1 hr
      exact hy (heq ▸ List.mem_map.2 ⟨d, hd, rfl⟩)
    rw [applyPuts, if_neg (by simp [putOk])]
    have hput :
        dbPut
          (done.map (fun s => ⟨s.id, s, tnew⟩) ++
            (y :: rest).map (fun s => ⟨s.id, s, told⟩)) ⟨y.id, y, tnew⟩ =
          (done ++ [y]).map (fun s => ⟨s.id, s, tnew⟩) ++
            rest.map (fun s => ⟨s.id, s, told⟩) := by
      rw [dbPut, if_pos]
      · rw [List.map_cons, List.map_append, List.map_cons,
          map_replace_skip hydone, map_replace_skip hyrest,
          if_pos (by simp), List.map_append]
        simp
      · refine List.any_eq_true.2 ⟨⟨y.id, y, told⟩, ?_, by simp⟩
        rw [List.map_cons]
        exact List.mem_append_right _ (by simp)
    rw [hput, ih (done ++ [y]) told tnew (by simpa using hids)]
    simp

/-- Iterating `saveStars` over a fully cached batch only re-stamps the
records. -/
theorem saveStarsTimes_canon (stars : List Repository)
    (hids : (stars.map (·.id)).Nodup) :
    ∀ (times : List Nat) (t0 : Nat),
      ∃ t, saveStarsTimes stars times (stars.map (fun s => ⟨s.id, s, t0⟩)) =
        stars.map (fun s => ⟨s.id, s, t⟩) := by
  intro times
  induction times with
  | nil => intro t0; exact ⟨t0, rfl⟩
  | cons t ts ih =>
    intro t0
    have hstep :
        (saveStars putOk t (stars.map (fun s => ⟨s.id, s, t0⟩)) stars).2 =
          stars.map (fun s => ⟨s.id, s, t⟩) := by
      have := applyPuts_putOk_overwrite stars [] t0 t (by simpa using hids)
      simpa using this
    obtain ⟨t', ht'⟩ := ih t
    refine ⟨t', ?_⟩
    rw [saveStarsTimes, List.foldl_cons, hstep]
    rw [saveStarsTimes] at ht'
    exact ht'

/-- C9.  With pairwise-distinct ids, saving the same collection any
positive number of times into an empty cache (each call with its own
timestamp) leaves `getCachedStars` returning exactly the input collection —
in particular a set equal to it by id and field values — so `saveStars` is
idempotent with respect to the cached set. -/
theorem saveStars_loadAll_idempotent :
    ∀ (stars : List Repository) (times : List Nat),
      (stars.map (·.id)).Nodup → times ≠ [] →
      getCachedStars (saveStarsTimes stars times []) = stars ∧
      (getCachedStars (saveStarsTimes stars times [])).Perm stars := by
  intro stars times hids hne
  have hmain : ∃ t, saveStarsTimes stars times [] =
      stars.map (fun s => ⟨s.id, s, t⟩) := by
    cases times with
    | nil => exact absurd rfl hne
    | cons t ts =>
      have h1 : (saveStars putOk t [] stars).2 =
          stars.map (fun s => ⟨s.id, s, t⟩) := by
        have := applyPuts_putOk_fresh stars [] t (by simp) hids
        simpa using this
      obtain ⟨t', ht'⟩ := saveStarsTimes_canon stars hids ts t
      refine ⟨t', ?_⟩
      rw [saveStarsTimes, List.foldl_cons, h1]
      rw [saveStarsTimes] at ht'
      exact ht'
  obtain ⟨t, ht⟩ := hmain
  have heq : getCachedStars (saveStarsTimes stars times []) = stars := by
    rw [ht, getCachedStars, List.map_map]
    exact List.map_id stars
  refine ⟨heq, ?_⟩
  rw [heq]

/-- Witness for `saveStars_loadAll_idempotent`: saving two repositories
twice (at times 5 and 9) leaves exactly those two cached. -/
theorem saveStars_loadAll_idempotent_witness :
    getCachedStars (saveStarsTimes [sampleRepo1, sampleRepo2] [5, 9] []) =
      [sampleRepo1, sampleRepo2] :=
  (saveStars_loadAll_idempotent [sampleRepo1, sampleRepo2] [5, 9]
    (by decide) (by decide)).1

/-! ## C10: the cache never deletes -/

/-- Running an operation sequence decomposes along concatenation. -/
theorem runOps_append :
    ∀ (ops1 ops2 : List CacheOp) (store : List RepositoryRecord),
      runOps store (ops1 ++ ops2) = runOps (runOps store ops1) ops2 := by
  intro ops1
  induction ops1 with
  | nil => intro ops2 store; rfl
  | cons op rest ih =>
    intro ops2 store
    cases op with
    | save beh now stars => rw [List.cons_append, runOps, runOps]; exact ih _ _
    | load => rw [List.cons_append, runOps, runOps]; exact ih _ _

/-- A put preserves every cached id. -/
theorem cachedIds_dbPut {store : List RepositoryRecord}
    {rec : RepositoryRecord} {i : Int} (h : i ∈ cachedIds store) :
    i ∈ cachedIds (dbPut store rec) := by
  rw [dbPut]
  split
  · obtain ⟨r, hr, hri⟩ := List.mem_map.1 h
    rw [cachedIds, List.map_map]
    refine List.mem_map.2 ⟨r, hr, ?_⟩
    by_cases hid : (r.id == rec.id) = true
    · simp only [Function.comp]
      rw [if_pos hid, ← hri]
      exact (beq_iff_eq.1 hid).symm
    · simp only [Function.comp]
      rw [if_neg hid]
      exact hri
  · rw [cachedIds, List.map_append]
    exact List.mem_append_left _ h

/-- A whole `saveStars` batch preserves every cached id. -/
theorem cachedIds_applyPuts {beh : Repository → PutBehavior} {now : Nat}
    {stars : List Repository} :
    ∀ {store : List RepositoryRecord} {i : Int}, i ∈ cachedIds store →
      i ∈ cachedIds (applyPuts beh now store stars) := by
  induction stars with
  | nil => intro store i h; exact h
  | cons x rest ih =>
    intro store i h
    rw [applyPuts]
    refine ih ?_
    split
    · exact h
    · exact cachedIds_dbPut h

/-- Any operation sequence preserves every cached id. -/
theorem cachedIds_runOps :
    ∀ (ops : List CacheOp) {store : List RepositoryRecord} {i : Int},
      i ∈ cachedIds store → i ∈ cachedIds (runOps store ops) := by
  intro ops
  induction ops with
  | nil => intro store i h; exact h
  | cons op rest ih =>
    intro store i h
    cases op with
    | save beh now stars =>
      rw [runOps]
      exact ih (cachedIds_applyPuts h)
    | load =>
      rw [runOps]
      exact ih h

/-- C10.  No cache-service operation removes an entry: after any further
sequence of `saveStars`/`getCachedStars` calls the set of cached ids is a
superset of every earlier one, and `saveStars([])` resolves successfully
(immediately fulfilled) leaving the store contents unchanged. -/
theorem cache_never_deletes :
    ∀ (store : List RepositoryRecord) (ops1 ops2 : List CacheOp) (i : Int),
      (i ∈ cachedIds (runOps store ops1) →
        i ∈ cachedIds (runOps store (ops1 ++ ops2))) ∧
      ∀ (beh : Repository → PutBehavior) (now : Nat),
        saveStars beh now store [] = (.fulfilled 0, store) := by
  intro store ops1 ops2 i
  constructor
  · intro h
    rw [runOps_append]
    exact cachedIds_runOps ops2 h
  · intro beh now
    rfl

/-- Witness for `cache_never_deletes`: id 1, cached before two further
save batches, is still cached after them. -/
theorem cache_never_deletes_witness :
    (1 : Int) ∈ cachedIds
      (runOps [⟨1, sampleRepo1, 0⟩]
        ([CacheOp.save putOk 5 [sampleRepo2]] ++
          [CacheOp.save putOk 6 [sampleRepo3]])) :=
  (cache_never_deletes [⟨1, sampleRepo1, 0⟩] [CacheOp.save putOk 5 [sampleRepo2]]
    [CacheOp.save putOk 6 [sampleRepo3]] 1).1 (by decide)

/-! ## Helper lemmas on the fetch orchestration -/

/-- A fulfilled `Promise.all` yields one result per input. -/
theorem promiseAll_ok_length {α ε β : Type} {f : α → Except ε β} :
    ∀ {l : List α} {res : List β},
      promiseAll f l = .ok res → res.length = l.length := by
  intro l
  induction l with
  | nil =>
    intro res h
    rw [promiseAll] at h
    cases h
    rfl
  | cons a as ih =>
    intro res h
    rw [promiseAll] at h
    cases hfa : f a with
    | error e => rw [hfa] at h; cases h
    | ok b =>
      rw [hfa] at h
      cases hrec : promiseAll f as with
      | error e => rw [hrec] at h; cases h
      | ok bs =>
        rw [hrec] at h
        cases h
        simp [ih hrec]

/-- Inversion of a successful `fetchAllStarredRepos` run: page 1 and the
whole parallel batch succeeded, and the run's observables are exactly the
canonical ones. -/
theorem fetchAll_ok_inversion :
    ∀ (token : Option String) (env : FetchEnv) (username : String)
      (repos : List Repository),
      (fetchAllStarredRepos token env username).result = .ok repos →
      ∃ (r1 : PageResponse) (rest : List PageResponse),
        fetchPage env username 1 = .ok r1 ∧
        promiseAll (fun i => fetchPage env username (i + 2))
          (List.range (getLastPage r1.linkHeader - 1)) = .ok rest ∧
        rest.length = getLastPage r1.linkHeader - 1 ∧
        fetchAllStarredRepos token env username =
          ⟨.ok (r1.items ++ (rest.map (·.items)).flatten),
            (r1.items.length, getLastPage r1.linkHeader * 100) ::
              (List.range (getLastPage r1.linkHeader - 1)).map
                (fun index => ((index + 2) * 100, getLastPage r1.linkHeader * 100)),
            1 :: (List.range (getLastPage r1.linkHeader - 1)).map (fun i => i + 2)⟩ := by
  intro token env username repos h
  by_cases htok : tokenFalsy token = true
  · rw [fetchAllStarredRepos, if_pos htok] at h
    cases h
  · cases h1 : fetchPage env username 1 with
    | error e =>
      rw [fetchAllStarredRepos, if_neg htok, h1] at h
      cases h
    | ok r1 =>
      rw [fetchAllStarredRepos, if_neg htok, h1] at h
      dsimp only at h
      by_cases hn : getLastPage r1.linkHeader > 1
      · rw [if_pos hn] at h
        cases hp : promiseAll (fun i => fetchPage env username (i + 2))
            (List.range (getLastPage r1.linkHeader - 1)) with
        | error e =>
          rw [hp] at h
          cases h
        | ok responses =>
          have hlen : responses.length = getLastPage r1.linkHeader - 1 := by
            rw [promiseAll_ok_length hp, List.length_range]
          refine ⟨r1, responses, rfl, hp, hlen, ?_⟩
          rw [fetchAllStarredRepos, if_neg htok, h1]
          dsimp only
          rw [if_pos hn, hp]
          dsimp only
          rw [hlen]
      · have h0 : getLastPage r1.linkHeader - 1 = 0 := by omega
        refine ⟨r1, [], rfl, ?_, by simp [h0], ?_⟩
        · rw [h0]
          rfl
        · rw [fetchAllStarredRepos, if_neg htok, h1]
          dsimp only
          rw [if_neg hn, h0]
          simp

/-! ## C4: the full collection, page 1 first, in page order -/

/-- C4.  On every successful fetch, the returned collection is exactly
page 1's items followed by the flattened items of pages `2..totalPages` in
the order of the parallel request array (`Promise.all` preserves input
order, so this is ascending page order), with no deduplication; when
`totalPages = 1` it is exactly page 1's items. -/
theorem fetchAll_returns_all_pages :
    ∀ (token : Option String) (env : FetchEnv) (username : String)
      (repos : List Repository),
      (fetchAllStarredRepos token env username).result = .ok repos →
      ∃ (r1 : PageResponse) (rest : List PageResponse),
        fetchPage env username 1 = .ok r1 ∧
        promiseAll (fun i => fetchPage env username (i + 2))
          (List.range (getLastPage r1.linkHeader - 1)) = .ok rest ∧
        repos = r1.items ++ (rest.map (·.items)).flatten ∧
        (getLastPage r1.linkHeader = 1 → repos = r1.items) := by
  intro token env username repos h
  obtain ⟨r1, rest, h1, hp, hlen, hrun⟩ :=
    fetchAll_ok_inversion token env username repos h
  rw [hrun] at h
  have hrepos : repos = r1.items ++ (rest.map (·.items)).flatten := by
    cases h
    rfl
  refine ⟨r1, rest, h1, hp, hrepos, ?_⟩
  intro hone
  have hnil : rest = [] := List.length_eq_zero.1 (by rw [hlen, hone])
  rw [hrepos, hnil]
  simp

/-- Witness for `fetchAll_returns_all_pages`: a three-page server, whose
fetch returns the three pages' items in page order. -/
theorem fetchAll_returns_all_pages_witness :
    ∃ (r1 : PageResponse) (rest : List PageResponse),
      fetchPage envThreePages ("u") 1 = .ok r1 ∧
      promiseAll (fun i => fetchPage envThreePages ("u") (i + 2))
        (List.range (getLastPage r1.linkHeader - 1)) = .ok rest ∧
      [sampleRepo1, sampleRepo2, sampleRepo3] =
        r1.items ++ (rest.map (·.items)).flatten ∧
      (getLastPage r1.linkHeader = 1 →
        [sampleRepo1, sampleRepo2, sampleRepo3] = r1.items) :=
  fetchAll_returns_all_pages (some ("t")) envThreePages ("u")
    [sampleRepo1, sampleRepo2, sampleRepo3] (by decide)

/-! ## C6: progress reporting -/

/-- C6 fails on the code in its final clause: on a successful single-page
fetch of one item, `onProgress` is called exactly once, with
`current = 1` (the page-1 item count) and `total = 100` — the final call's
`current` does *not* equal `total`. -/
theorem fetchAll_progress_single_page :
    fetchAllStarredRepos (some ("t")) envOnePage ("u") =
      ⟨.ok [sampleRepo1], [(1, 100)], [1]⟩ ∧ (1 : Nat) ≠ 100 := by
  constructor
  · rfl
  · decide

/-- C6 (amended).  On every successful fetch, `onProgress` is invoked
exactly `max totalPages 1` times: first with `current` = the number of
items on page 1 and `total = totalPages * 100`, then once per page
`i ∈ 2..totalPages` (in page order) with `current = i * 100` and the same
`total`.  When page 1 holds at most 100 items (the requested page size)
the sequence of `current` values is non-decreasing, and when
`totalPages ≥ 2` the final call's `current` equals `total`; when
`totalPages = 1` the single call's `current` is page 1's item count, which
can be smaller than `total = 100`. -/
theorem fetchAll_progress_spec :
    ∀ (token : Option String) (env : FetchEnv) (username : String)
      (repos : List Repository) (r1 : PageResponse),
      (fetchAllStarredRepos token env username).result = .ok repos →
      fetchPage env username 1 = .ok r1 →
      (fetchAllStarredRepos token env username).progressCalls =
        (r1.items.length, getLastPage r1.linkHeader * 100) ::
          (List.range (getLastPage r1.linkHeader - 1)).map
            (fun index => ((index + 2) * 100, getLastPage r1.linkHeader * 100)) ∧
      (fetchAllStarredRepos token env username).progressCalls.length =
        max (getLastPage r1.linkHeader) 1 ∧
      (r1.items.length ≤ 100 →
        (((fetchAllStarredRepos token env username).progressCalls.map
          Prod.fst).Pairwise (· ≤ ·))) ∧
      (2 ≤ getLastPage r1.linkHeader →
        ((fetchAllStarredRepos token env username).progressCalls.map
          Prod.fst).getLast? = some (getLastPage r1.linkHeader * 100)) := by
  intro token env username repos r1 h h1
  obtain ⟨r2, rest, h1', hp, hlen, hrun⟩ :=
    fetchAll_ok_inversion token env username repos h
  injection h1.symm.trans h1' with hr
  rw [← hr] at hp hlen hrun
  refine ⟨?_, ?_, ?_, ?_⟩
  · rw [hrun]
  · rw [hrun]
    simp only [List.length_cons, List.length_map, List.length_range]
    omega
  · intro hle
    rw [hrun]
    rw [List.map_cons, List.map_map]
    refine List.pairwise_cons.2 ⟨?_, ?_⟩
    · intro b hb
      obtain ⟨i, hi, rfl⟩ := List.mem_map.1 hb
      simp only [Function.comp_apply]
      omega
    · refine List.Pairwise.map _ ?_ (List.pairwise_lt_range _)
      intro i j hij
      simp only [Function.comp_apply]
      omega
  · intro h2
    rw [hrun]
    rw [List.map_cons, List.map_map]
    rw [show getLastPage r1.linkHeader - 1 = (getLastPage r1.linkHeader - 2) + 1
        from by omega]
    rw [List.range_succ, List.map_append, List.map_singleton,
      ← List.cons_append, List.getLast?_concat]
    simp only [Function.comp_apply]
    congr 1
    omega

/-- Witness for `fetchAll_progress_spec`: the three-page server yields
exactly the calls `(1, 300), (200, 300), (300, 300)`. -/
theorem fetchAll_progress_spec_witness :
    (fetchAllStarredRepos (some ("t")) envThreePages ("u")).progressCalls =
      [(1, 300), (200, 300), (300, 300)] := by
  have h :=
    (fetchAll_progress_spec (some ("t")) envThreePages ("u")
      [sampleRepo1, sampleRepo2, sampleRepo3]
      ⟨200, "OK",
        some ("<https://api.github.com/users/u/starred?page=3&per_page=100>; rel=\"last\""),
        [sampleRepo1]⟩ (by decide) (by decide)).1
  rw [h]
  decide

/-! ## Helper lemmas on the stable sort -/

/-- Inserting permutes to consing. -/
theorem insertCmp_perm {α : Type} (cmp : α → α → ℚ) (x : α) :
    ∀ l : List α, (insertCmp cmp x l).Perm (x :: l) := by
  intro l
  induction l with
  | nil => exact List.Perm.refl _
  | cons y ys ih =>
    rw [insertCmp]
    split
    · exact (ih.cons y).trans (List.Perm.swap x y ys)
    · exact List.Perm.refl _

/-- The embedded `Array.prototype.sort` permutes its input. -/
theorem jsSortBy_perm {α : Type} (cmp : α → α → ℚ) :
    ∀ l : List α, (jsSortBy cmp l).Perm l := by
  intro l
  induction l with
  | nil => exact List.Perm.refl _
  | cons x xs ih =>
    exact (insertCmp_perm cmp x (jsSortBy cmp xs)).trans (ih.cons x)

/-- Inserting into a sorted list keeps it sorted, for a consistent
comparator. -/
theorem insertCmp_pairwise {α : Type} {cmp : α → α → ℚ}
    (hanti : ∀ a b, 0 ≤ cmp a b → cmp b a ≤ 0)
    (htrans : ∀ a b c, cmp a b ≤ 0 → cmp b c ≤ 0 → cmp a c ≤ 0) (x : α) :
    ∀ {l : List α}, l.Pairwise (fun a b => cmp a b ≤ 0) →
      (insertCmp cmp x l).Pairwise (fun a b => cmp a b ≤ 0) := by
  intro l
  induction l with
  | nil => intro _; simp [insertCmp]
  | cons y ys ih =>
    intro hl
    obtain ⟨hy, hys⟩ := List.pairwise_cons.1 hl
    rw [insertCmp]
    split
    · rename_i hlt
      refine List.pairwise_cons.2 ⟨?_, ih hys⟩
      intro b hb
      rcases List.mem_cons.1 ((insertCmp_perm cmp x ys).mem_iff.1 hb) with rfl | hb
      · exact le_of_lt hlt
      · exact hy b hb
    · rename_i hnlt
      push_neg at hnlt
      have hxy : cmp x y ≤ 0 := hanti y x hnlt
      refine List.pairwise_cons.2 ⟨?_, hl⟩
      intro b hb
      rcases List.mem_cons.1 hb with rfl | hb
      · exact hxy
      · exact htrans x y b hxy (hy b hb)

/-- The embedded `Array.prototype.sort` sorts, for a consistent
comparator. -/
theorem jsSortBy_pairwise {α : Type} {cmp : α → α → ℚ}
    (hanti : ∀ a b, 0 ≤ cmp a b → cmp b a ≤ 0)
    (htrans : ∀ a b c, cmp a b ≤ 0 → cmp b c ≤ 0 → cmp a c ≤ 0) :
    ∀ l : List α, (jsSortBy cmp l).Pairwise (fun a b => cmp a b ≤ 0) := by
  intro l
  induction l with
  | nil => exact List.Pairwise.nil
  | cons x xs ih => exact insertCmp_pairwise hanti htrans x ih

/-- Inserting an element all ties select is transparent to a tie filter. -/
theorem insertCmp_filter_tie {α : Type} {cmp : α → α → ℚ} {p : α → Bool}
    {x : α} (hx : p x = true) (hties : ∀ y, p y = true → cmp y x = 0) :
    ∀ l : List α, (insertCmp cmp x l).filter p = x :: l.filter p := by
  intro l
  induction l with
  | nil => simp [insertCmp, hx]
  | cons y ys ih =>
    rw [insertCmp]
    split
    · rename_i hlt
      have hpy : p y = false := by
        cases hpy : p y with
        | false => rfl
        | true =>
          rw [hties y hpy] at hlt
          exact absurd hlt (by norm_num)
      rw [List.filter_cons, if_neg (by simp [hpy]), ih,
        List.filter_cons, if_neg (by simp [hpy])]
    · rw [List.filter_cons, if_pos (by simp [hx])]

/-- Inserting an element the filter rejects is invisible to the filter. -/
theorem insertCmp_filter_not {α : Type} {cmp : α → α → ℚ} {p : α → Bool}
    {x : α} (hx : p x = false) :
    ∀ l : List α, (insertCmp cmp x l).filter p = l.filter p := by
  intro l
  induction l with
  | nil => simp [insertCmp, hx]
  | cons y ys ih =>
    rw [insertCmp]
    split
    · rw [List.filter_cons, ih, List.filter_cons]
    · rw [List.filter_cons, if_neg (by simp [hx])]

/-- Stability of the embedded sort: restricted to any class of mutually
tied elements, the sorted list is the input list (ties keep their original
relative order). -/
theorem jsSortBy_filter_tied {α : Type} {cmp : α → α → ℚ} {p : α → Bool}
    (hties : ∀ a b, p a = true → p b = true → cmp a b = 0) :
    ∀ l : List α, (jsSortBy cmp l).filter p = l.filter p := by
  intro l
  induction l with
  | nil => rfl
  | cons x xs ih =>
    show (insertCmp cmp x (jsSortBy cmp xs)).filter p = _
    cases hx : p x with
    | true =>
      rw [insertCmp_filter_tie hx (fun y hy => hties y x hy hx) _, ih,
        List.filter_cons, if_pos (by simp [hx])]
    | false =>
      rw [insertCmp_filter_not hx _, ih, List.filter_cons,
        if_neg (by simp [hx])]

/-- A comparator that only ever ties sorts to the identity. -/
theorem jsSortBy_all_ties {α : Type} {cmp : α → α → ℚ} :
    ∀ l : List α, (∀ a ∈ l, ∀ b ∈ l, cmp a b = 0) → jsSortBy cmp l = l := by
  intro l
  induction l with
  | nil => intro _; rfl
  | cons x xs ih =>
    intro hz
    show insertCmp cmp x (jsSortBy cmp xs) = x :: xs
    rw [ih (fun a ha b hb => hz a (by simp [ha]) b (by simp [hb]))]
    cases xs with
    | nil => rfl
    | cons y ys =>
      rw [insertCmp,
        if_neg (by rw [hz y (by simp) x (by simp)]; norm_num)]

/-! ## Helper lemmas on the modelled collation -/

/-- The lexicographic comparison is zero exactly on equal key lists. -/
theorem lexCmp_eq_zero_iff : ∀ a b : List Nat, lexCmp a b = 0 ↔ a = b := by
  intro a
  induction a with
  | nil => intro b; cases b <;> simp [lexCmp]
  | cons x xs ih =>
    intro b
    cases b with
    | nil => simp [lexCmp]
    | cons y ys =>
      rw [lexCmp]
      rcases Nat.lt_trichotomy x y with h | h | h
      · rw [if_pos h]
        simp only [List.cons.injEq]
        constructor
        · intro hc; exact absurd hc (by norm_num)
        · rintro ⟨rfl, -⟩; exact absurd h (lt_irrefl x)
      · subst h
        rw [if_neg (lt_irrefl x), if_neg (lt_irrefl x)]
        simp [ih]
      · rw [if_neg (by omega), if_pos h]
        simp only [List.cons.injEq]
        constructor
        · intro hc; exact absurd hc (by norm_num)
        · rintro ⟨rfl, -⟩; exact absurd h (lt_irrefl x)

/-- The lexicographic comparison is antisymmetric. -/
theorem lexCmp_neg : ∀ a b : List Nat, lexCmp a b = -lexCmp b a := by
  intro a
  induction a with
  | nil => intro b; cases b <;> simp [lexCmp]
  | cons x xs ih =>
    intro b
    cases b with
    | nil => simp [lexCmp]
    | cons y ys =>
      rw [lexCmp, lexCmp]
      rcases Nat.lt_trichotomy x y with h | h | h
      · rw [if_pos h, if_neg (by omega), if_pos h]
      · subst h
        simp only [if_neg (lt_irrefl x)]
        exact ih ys
      · rw [if_neg (by omega), if_pos h, if_pos h]
        norm_num

/-- The lexicographic comparison is transitive on its nonpositive cone. -/
theorem lexCmp_trans :
    ∀ a b c : List Nat, lexCmp a b ≤ 0 → lexCmp b c ≤ 0 → lexCmp a c ≤ 0 := by
  intro a
  induction a with
  | nil =>
    intro b c _ _
    cases c <;> simp [lexCmp]
  | cons x xs ih =>
    intro b c hab hbc
    cases b with
    | nil => rw [lexCmp] at hab; exact absurd hab (by norm_num)
    | cons y ys =>
      cases c with
      | nil => rw [lexCmp] at hbc; exact absurd hbc (by norm_num)
      | cons z zs =>
        rw [lexCmp] at hab hbc ⊢
        rcases Nat.lt_trichotomy x y with h1 | h1 | h1
        · rcases Nat.lt_trichotomy y z with h2 | h2 | h2
          · rw [if_pos (by omega)]
            norm_num
          · subst h2
            rw [if_pos h1]
            norm_num
          · rw [if_neg (by omega), if_pos h2] at hbc
            exact absurd hbc (by norm_num)
        · subst h1
          rcases Nat.lt_trichotomy x z with h2 | h2 | h2
          · rw [if_pos h2]
            norm_num
          · subst h2
            rw [if_neg (lt_irrefl x), if_neg (lt_irrefl x)] at hab hbc ⊢
            exact ih ys zs hab hbc
          · rw [if_neg (by omega), if_pos h2] at hbc
            exact absurd hbc (by norm_num)
        · rw [if_neg (by omega), if_pos h1] at hab
          exact absurd hab (by norm_num)

/-- The modelled locale comparison is antisymmetric. -/
theorem localeCompare_anti (a b : String)
    (h : 0 ≤ localeCompare a b) : localeCompare b a ≤ 0 := by
  rw [localeCompare] at h ⊢
  by_cases h1 : lexCmp (lowerKey a) (lowerKey b) = 0
  · have h1' : lexCmp (lowerKey b) (lowerKey a) = 0 := by
      rw [lexCmp_eq_zero_iff] at h1 ⊢
      exact h1.symm
    rw [if_pos h1] at h
    rw [if_pos h1', lexCmp_neg (caseKey b)]
    linarith
  · have h1' : ¬ lexCmp (lowerKey b) (lowerKey a) = 0 := by
      rw [lexCmp_eq_zero_iff] at h1 ⊢
      exact fun heq => h1 heq.symm
    rw [if_neg h1] at h
    rw [if_neg h1', lexCmp_neg (lowerKey b)]
    linarith

/-- The modelled locale comparison is transitive on its nonpositive cone. -/
theorem localeCompare_trans (a b c : String)
    (hab : localeCompare a b ≤ 0) (hbc : localeCompare b c ≤ 0) :
    localeCompare a c ≤ 0 := by
  rw [localeCompare] at hab hbc ⊢
  by_cases h1 : lexCmp (lowerKey a) (lowerKey b) = 0
  · have e1 : lowerKey a = lowerKey b := (lexCmp_eq_zero_iff _ _).1 h1
    by_cases h2 : lexCmp (lowerKey b) (lowerKey c) = 0
    · have e2 : lowerKey b = lowerKey c := (lexCmp_eq_zero_iff _ _).1 h2
      rw [if_pos h1] at hab
      rw [if_pos h2] at hbc
      rw [if_pos (by rw [lexCmp_eq_zero_iff, e1, e2])]
      exact lexCmp_trans _ _ _ hab hbc
    · rw [if_neg h2] at hbc
      rw [if_neg (by rw [e1]; exact h2), e1]
      exact hbc
  · rw [if_neg h1] at hab
    by_cases h2 : lexCmp (lowerKey b) (lowerKey c) = 0
    · have e2 : lowerKey b = lowerKey c := (lexCmp_eq_zero_iff _ _).1 h2
      rw [if_neg (by rw [← e2]; exact h1), ← e2]
      exact hab
    · rw [if_neg h2] at hbc
      have hac : lexCmp (lowerKey a) (lowerKey c) ≤ 0 :=
        lexCmp_trans _ _ _ hab hbc
      by_cases h3 : lexCmp (lowerKey a) (lowerKey c) = 0
      · exfalso
        have e3 : lowerKey a = lowerKey c := (lexCmp_eq_zero_iff _ _).1 h3
        rw [← e3] at hbc
        rw [lexCmp_neg (lowerKey b) (lowerKey a)] at hbc
        exact h1 (by linarith)
      · rw [if_neg h3]
        exact hac

/-- The source's four comparators are all antisymmetric. -/
theorem sortCmp_anti (k : SortKey) :
    ∀ a b : ScoredRepo, 0 ≤ sortCmp k a b → sortCmp k b a ≤ 0 := by
  intro a b h
  cases k with
  | name => exact localeCompare_anti _ _ h
  | relevance => rw [sortCmp] at h ⊢; linarith
  | stars => rw [sortCmp] at h ⊢; linarith
  | updated => rw [sortCmp] at h ⊢; linarith

/-- The source's four comparators are all transitive. -/
theorem sortCmp_trans (k : SortKey) :
    ∀ a b c : ScoredRepo,
      sortCmp k a b ≤ 0 → sortCmp k b c ≤ 0 → sortCmp k a c ≤ 0 := by
  intro a b c hab hbc
  cases k with
  | name => exact localeCompare_trans _ _ _ hab hbc
  | relevance => rw [sortCmp] at hab hbc ⊢; linarith
  | stars => rw [sortCmp] at hab hbc ⊢; linarith
  | updated => rw [sortCmp] at hab hbc ⊢; linarith

/-! ## C7: search term length policies -/

/-- C7.  A query whose term trims to the empty string takes the no-match
code path (fuzzy matching is not invoked) and returns the entire
collection, ordered per `sortKey`; a query whose term is nonempty after
trimming but shorter than 2 trimmed characters returns the empty array
(the `minMatchCharLength: 2` policy of the modelled matcher); and a
2-character term that matches (`"re"` against the fixture collection)
returns a non-empty result under every sort key. -/
theorem searchRepositories_term_policies :
    ∀ (repos : List Repository) (k : SortKey) (term : String),
      (strTrim term = "" →
        searchRepositories repos term k =
          sortRepositories (repos.map (fun item => ⟨item, none⟩)) k ∧
        (searchRepositories repos term k).Perm repos) ∧
      (strTrim term ≠ "" → (strTrim term).length < 2 →
        searchRepositories repos term k = []) ∧
      searchRepositories [sampleRepo1, sampleRepo2, sampleRepo3] "re" k ≠ [] := by
  intro repos k term
  refine ⟨?_, ?_, ?_⟩
  · intro h
    refine ⟨by rw [searchRepositories, if_pos h], ?_⟩
    rw [searchRepositories, if_pos h, sortRepositories]
    have hid : (repos.map (fun item => (⟨item, none⟩ : ScoredRepo))).map
        (·.item) = repos := by
      rw [List.map_map]
      exact List.map_id repos
    have hperm :=
      (jsSortBy_perm (sortCmp k) (repos.map (fun item => ⟨item, none⟩))).map
        (·.item)
    rw [hid] at hperm
    exact hperm
  · intro h2 h3
    simp [searchRepositories, h2, fuseSearch, h3]
  · cases k <;> decide

/-- Witness for `searchRepositories_term_policies`: a 1-character term
yields no results; a whitespace-only term yields the whole fixture
collection. -/
theorem searchRepositories_term_policies_witness :
    searchRepositories [sampleRepo1, sampleRepo2, sampleRepo3] "r"
      .relevance = [] ∧
    (searchRepositories [sampleRepo1, sampleRepo2, sampleRepo3] "   "
      .stars).Perm [sampleRepo1, sampleRepo2, sampleRepo3] := by
  constructor
  · exact
      (searchRepositories_term_policies [sampleRepo1, sampleRepo2, sampleRepo3]
        .relevance ("r")).2.1 (by decide) (by decide)
  · exact
      ((searchRepositories_term_policies [sampleRepo1, sampleRepo2, sampleRepo3]
        .stars ("   ")).1 (by decide)).2

/-! ## C8: sort policies -/

/-- C8.  The output order is determined by `sortKey` (and the output is
always a permutation of the input items): `stars` sorts descending by star
count; `name` sorts ascending by the (modelled) locale-aware comparison —
deterministically, as a pure function; `updated` sorts descending by the
parsed `updatedAt` timestamp; `relevance` sorts ascending by match score
with ties kept in original collection order (stability: each tie class is
returned in input order), and with no search term the relevance sort falls
back to the collection's natural order. -/
theorem sortRepositories_spec :
    ∀ rs : List ScoredRepo,
      (∀ k : SortKey, (sortRepositories rs k).Perm (rs.map (·.item))) ∧
      (sortRepositories rs .stars).Pairwise
        (fun a b => b.stargazers_count ≤ a.stargazers_count) ∧
      (sortRepositories rs .name).Pairwise
        (fun a b => localeCompare a.name b.name ≤ 0) ∧
      (sortRepositories rs .updated).Pairwise
        (fun a b => dateValue b.updated_at ≤ dateValue a.updated_at) ∧
      (jsSortBy (sortCmp .relevance) rs).Pairwise
        (fun a b => a.score.getD 0 ≤ b.score.getD 0) ∧
      sortRepositories rs .relevance =
        (jsSortBy (sortCmp .relevance) rs).map (·.item) ∧
      (∀ v : ℚ,
        (jsSortBy (sortCmp .relevance) rs).filter
            (fun z => decide (z.score.getD 0 = v)) =
          rs.filter (fun z => decide (z.score.getD 0 = v))) ∧
      (∀ (repos : List Repository) (term : String), strTrim term = "" →
        searchRepositories repos term .relevance = repos) := by
  intro rs
  refine ⟨?_, ?_, ?_, ?_, ?_, rfl, ?_, ?_⟩
  · intro k
    rw [sortRepositories]
    exact (jsSortBy_perm (sortCmp k) rs).map (·.item)
  · rw [sortRepositories]
    refine List.Pairwise.map _ ?_
      (jsSortBy_pairwise (sortCmp_anti .stars) (sortCmp_trans .stars) rs)
    intro a b hab
    rw [sortCmp] at hab
    have : ((b.item.stargazers_count : ℚ)) ≤ ((a.item.stargazers_count : ℚ)) := by
      linarith
    exact_mod_cast this
  · rw [sortRepositories]
    refine List.Pairwise.map _ ?_
      (jsSortBy_pairwise (sortCmp_anti .name) (sortCmp_trans .name) rs)
    intro a b hab
    exact hab
  · rw [sortRepositories]
    refine List.Pairwise.map _ ?_
      (jsSortBy_pairwise (sortCmp_anti .updated) (sortCmp_trans .updated) rs)
    intro a b hab
    rw [sortCmp] at hab
    have : ((dateValue b.item.updated_at : ℚ)) ≤
        ((dateValue a.item.updated_at : ℚ)) := by
      linarith
    exact_mod_cast this
  · refine List.Pairwise.imp ?_
      (jsSortBy_pairwise (sortCmp_anti .relevance) (sortCmp_trans .relevance) rs)
    intro a b hab
    rw [sortCmp] at hab
    linarith
  · intro v
    refine jsSortBy_filter_tied ?_ rs
    intro a b ha hb
    have ha' : a.score.getD 0 = v := of_decide_eq_true ha
    have hb' : b.score.getD 0 = v := of_decide_eq_true hb
    rw [sortCmp, ha', hb']
    ring
  · intro repos term h
    rw [searchRepositories, if_pos h, sortRepositories, jsSortBy_all_ties]
    · rw [List.map_map]
      exact List.map_id repos
    · intro a ha b hb
      obtain ⟨x, -, rfl⟩ := List.mem_map.1 ha
      obtain ⟨y, -, rfl⟩ := List.mem_map.1 hb
      rw [sortCmp]
      norm_num

/-- Witness for `sortRepositories_spec`: with no search term, relevance
sort returns the fixture collection in its natural order. -/
theorem sortRepositories_spec_witness :
    searchRepositories [sampleRepo3, sampleRepo1, sampleRepo2] ""
      .relevance = [sampleRepo3, sampleRepo1, sampleRepo2] :=
  (sortRepositories_spec []).2.2.2.2.2.2.2
    [sampleRepo3, sampleRepo1, sampleRepo2] "" (by decide)

end Stargazer
